import Mathlib

/-!
Shallow embedding of the cardinality-estimation core
(`src/CardinalityEstimation/include/CardinalityEstimation.h` and
`src/CardinalityEstimation/src/CardinalityEstimation.cpp`).

Modelling choices:
* C++ `int` arithmetic inside `universalHash` is modelled as mathematical
  integers reduced with two's-complement wraparound (`toInt32`), since the
  multiplication `31 * value` can exceed the 32-bit range; the C++ `%`
  operator truncates toward zero, which is `Int.tmod`.
* `table[i][index]` accesses are guarded: an index outside `[0, row.length)`
  (undefined behaviour in the C++ source) makes the operation return `none`.
* Sketch counters are mathematical integers: the source only increments them
  one at a time and clamps decrements at 0.
* The sampler draws a uniform real and compares it with the sampling rate;
  the embedding abstracts the stream of Bernoulli outcomes as a `List Bool`
  consumed one element per draw.
* C++ exceptions (`std::invalid_argument`, `std::length_error` from
  oversized `std::vector` allocation) become `Except`/`Option` error
  results.
-/

/-- Wraparound of a mathematical integer into the range of a 32-bit signed
`int` (two's complement). -/
def toInt32 (x : Int) : Int :=
  (x + 2 ^ 31) % 2 ^ 32 - 2 ^ 31

/-- The Count-Min sketch: `width` columns, `depth` hash rows, and the counter
table (a list of `depth` rows of `width` counters). -/
structure CountMinSketch where
  width : Int
  depth : Int
  table : List (List Int)
deriving DecidableEq, Repr

namespace CountMinSketch

/-- Hash `universalHash(value, i) = ((31 * value + 17 * i) % 15485863) % width`,
with C++ `int` wraparound on the products and the sum, and C++ truncated
`%` (`Int.tmod`). -/
def universalHash (width value i : Int) : Int :=
  Int.tmod (Int.tmod (toInt32 (toInt32 (31 * value) + toInt32 (17 * i))) 15485863) width

/-- The constructor `CountMinSketch(w, d)` builds `table(d, vector<int>(w, 0))`.
There is no dimension validation in the source; a negative size converts to an
enormous `size_t` and the `std::vector` allocation throws (`none`). A zero
size simply yields an empty vector. -/
def construct (w d : Int) : Option CountMinSketch :=
  if w < 0 ∨ d < 0 then none
  else some { width := w, depth := d,
              table := List.replicate d.toNat (List.replicate w.toNat 0) }

/-- One `table[i][index] = f(table[i][index])` step on a single row:
compute the bucket for row `i`, fail if it is out of bounds (UB in the C++),
otherwise update the cell. -/
def rowApply (width value : Int) (f : Int → Int) (i : Nat) (row : List Int) :
    Option (List Int) :=
  let idx := universalHash width value (i : Int)
  if 0 ≤ idx ∧ idx.toNat < row.length then
    some (row.set idx.toNat (f (row.getD idx.toNat 0)))
  else none

/-- Apply the cell update of `rowApply` to row `i` of the whole table,
failing if row `i` does not exist. -/
def tableApply (width value : Int) (f : Int → Int) (tbl : List (List Int))
    (i : Nat) : Option (List (List Int)) :=
  if i < tbl.length then
    (rowApply width value f i (tbl.getD i [])).map fun row' => tbl.set i row'
  else none

/-- The loop `for (int i = 0; i < depth; ++i) table[i][hash(value,i)] = f(...)`,
started at row `i` with `fuel` iterations remaining. -/
def updateLoop (width value : Int) (f : Int → Int) (i : Nat)
    (tbl : List (List Int)) : Nat → Option (List (List Int))
  | 0 => some tbl
  | fuel + 1 =>
    match tableApply width value f tbl i with
    | none => none
    | some tbl' => updateLoop width value f (i + 1) tbl' fuel

/-- Method `add(value)`: increment the hashed bucket in every row. -/
def add (s : CountMinSketch) (value : Int) : Option CountMinSketch :=
  (updateLoop s.width value (fun c => c + 1) 0 s.table s.depth.toNat).map
    fun t => { s with table := t }

/-- Method `remove(value)`: decrement the hashed bucket in every row, clamped at 0
(`std::max(0, c - 1)`). -/
def remove (s : CountMinSketch) (value : Int) : Option CountMinSketch :=
  (updateLoop s.width value (fun c => max 0 (c - 1)) 0 s.table s.depth.toNat).map
    fun t => { s with table := t }

/-- The loop of `estimate`: running minimum `mc` (seeded with `INT_MAX`),
reading the hashed bucket of each row in turn. -/
def estimateLoop (s : CountMinSketch) (value : Int) (i : Nat) (mc : Int) :
    Nat → Option Int
  | 0 => some mc
  | fuel + 1 =>
    if i < s.table.length then
      let row := s.table.getD i []
      let idx := universalHash s.width value (i : Int)
      if 0 ≤ idx ∧ idx.toNat < row.length then
        estimateLoop s value (i + 1) (min mc (row.getD idx.toNat 0)) fuel
      else none
    else none

/-- Method `estimate(value)`: minimum of the hashed buckets over all rows, starting
from `INT_MAX = 2147483647`. -/
def estimate (s : CountMinSketch) (value : Int) : Option Int :=
  estimateLoop s value 0 2147483647 s.depth.toNat

end CountMinSketch

/-- The bucket index used by hash row `j` (the loop counter of the C++
loops, as a natural number) for a given `value`. -/
def hashIdx (w v : Int) (j : Nat) : Int :=
  CountMinSketch.universalHash w v (j : Int)

/-- One sketch-level call, for stating properties of arbitrary call
sequences. -/
inductive SketchOp where
  | addOp (v : Int)
  | removeOp (v : Int)
deriving DecidableEq, Repr

/-- Run a sequence of `add`/`remove` calls on a sketch. -/
def runOps (s : CountMinSketch) : List SketchOp → Option CountMinSketch
  | [] => some s
  | op :: rest =>
    match (match op with
           | .addOp v => s.add v
           | .removeOp v => s.remove v) with
    | none => none
    | some s' => runOps s' rest

/-- Run `n` consecutive `add(v)` calls. -/
def addN (s : CountMinSketch) (v : Int) : Nat → Option CountMinSketch
  | 0 => some s
  | n + 1 =>
    match addN s v n with
    | none => none
    | some s' => s'.add v

/-- Run `n` consecutive `remove(v)` calls. -/
def removeN (s : CountMinSketch) (v : Int) : Nat → Option CountMinSketch
  | 0 => some s
  | n + 1 =>
    match removeN s v n with
    | none => none
    | some s' => s'.remove v

/-- The errors the engine can report.  `malformedTuple` and `emptyQuery`
model the two `std::invalid_argument` throws of the source; `outOfBounds`
models an out-of-range table access (undefined behaviour in the C++). -/
inductive CEError where
  | malformedTuple
  | emptyQuery
  | outOfBounds
deriving DecidableEq, Repr

/-- An equality predicate `{columnIdx, value}` (`CompareExpression`). -/
structure CompareExpression where
  columnIdx : Int
  value : Int
deriving DecidableEq, Repr

/-- The engine: one sketch per tracked column plus the sampler, whose
pending Bernoulli outcomes are abstracted as a list of booleans (the
`DataExecuter` handle is never consulted by the estimation logic and is
omitted). -/
structure CEEngine where
  countMinA : CountMinSketch
  countMinB : CountMinSketch
  sampler : List Bool
deriving DecidableEq, Repr

namespace CEEngine

/-- Method `insertTuple`: validate the tuple size, draw from the sampler exactly
once, and if the draw succeeds add `tuple[0]` to sketch A and `tuple[1]` to sketch B. -/
def insertTuple (e : CEEngine) (tuple : List Int) : Except CEError CEEngine :=
  if tuple.length < 2 then .error .malformedTuple
  else
    let valueA := tuple.getD 0 0
    let valueB := tuple.getD 1 0
    let sampled := e.sampler.headD false
    let e' : CEEngine := { e with sampler := e.sampler.tail }
    if sampled then
      match e'.countMinA.add valueA with
      | none => .error .outOfBounds
      | some a =>
        match e'.countMinB.add valueB with
        | none => .error .outOfBounds
        | some b => .ok { e' with countMinA := a, countMinB := b }
    else .ok e'

/-- Method `deleteTuple`: validate the tuple size, then remove `tuple[0]` from
sketch A and `tuple[1]` from sketch B unconditionally; `tupleId` is accepted
but never read. -/
def deleteTuple (e : CEEngine) (tuple : List Int) (tupleId : Int) :
    Except CEError CEEngine :=
  if tuple.length < 2 then .error .malformedTuple
  else
    match e.countMinA.remove (tuple.getD 0 0) with
    | none => .error .outOfBounds
    | some a =>
      match e.countMinB.remove (tuple.getD 1 0) with
      | none => .error .outOfBounds
      | some b => .ok { e with countMinA := a, countMinB := b }

end CEEngine

/-- Lookup in the association-list model of `std::unordered_map<int,int>`. -/
def assocFind : List (Int × Int) → Int → Option Int
  | [], _ => none
  | (k', v') :: rest, k => if k' = k then some v' else assocFind rest k

/-- Overwrite the value stored under key `k` (`columnEstimates[k] = v` when
the key is already present). -/
def assocSet : List (Int × Int) → Int → Int → List (Int × Int)
  | [], k, v => [(k, v)]
  | (k', v') :: rest, k, v =>
    if k' = k then (k, v) :: rest else (k', v') :: assocSet rest k v

namespace CEEngine

/-- The per-predicate loop of `query`: estimate against sketch A when
`columnIdx == 0` and against sketch B otherwise, then fold the estimate into
the per-column map (first occurrence inserts, later occurrences take the
minimum). -/
def queryLoop (e : CEEngine) : List CompareExpression → List (Int × Int) →
    Except CEError (List (Int × Int))
  | [], m => .ok m
  | q :: rest, m =>
    match (if q.columnIdx = 0 then e.countMinA.estimate q.value
           else e.countMinB.estimate q.value) with
    | none => .error .outOfBounds
    | some est =>
      let m' := match assocFind m q.columnIdx with
        | none => m ++ [(q.columnIdx, est)]
        | some old => assocSet m q.columnIdx (min old est)
      queryLoop e rest m'

/-- The final reduction of `query`: minimum over the per-column estimates,
seeded with `INT_MAX`. -/
def queryFinal (m : List (Int × Int)) : Int :=
  m.foldl (fun acc p => min acc p.2) 2147483647

/-- Method `query(quals)`: reject the empty list, otherwise build the per-column
estimate map and return the minimum across columns. -/
def query (e : CEEngine) (quals : List CompareExpression) :
    Except CEError Int :=
  if quals.isEmpty then .error .emptyQuery
  else
    match queryLoop e quals [] with
    | .error err => .error err
    | .ok m => .ok (queryFinal m)

/-- Method `prepare()`: rebuild both sketches with their current `(width, depth)`,
zeroing every counter. -/
def prepare (e : CEEngine) : Option CEEngine :=
  match CountMinSketch.construct e.countMinA.width e.countMinA.depth with
  | none => none
  | some a =>
    match CountMinSketch.construct e.countMinB.width e.countMinB.depth with
    | none => none
    | some b => some { e with countMinA := a, countMinB := b }

end CEEngine

/-- A concrete 10×3 sketch in its freshly constructed state, used to
instantiate theorems on explicit inputs. -/
def sketchEx : CountMinSketch :=
  { width := 10, depth := 3, table := List.replicate 3 (List.replicate 10 0) }

/-- A concrete engine holding two fresh 10×3 sketches and an empty sampler
stream (every pending draw reads as `false`). -/
def engineEx : CEEngine :=
  { countMinA := sketchEx, countMinB := sketchEx, sampler := [] }

/-! ### List helpers -/

theorem listSet_getD_self {α : Type} (l : List α) (n : Nat) (a d : α)
    (h : n < l.length) : (l.set n a).getD n d = a := by
  induction l generalizing n with
  | nil => simp at h
  | cons x xs ih =>
    cases n with
    | zero => rfl
    | succ n =>
      rw [List.set_cons_succ, List.getD_cons_succ]
      exact ih n (by simpa using h)

theorem listSet_getD_ne {α : Type} (l : List α) (n m : Nat) (a d : α)
    (h : n ≠ m) : (l.set n a).getD m d = l.getD m d := by
  induction l generalizing n m with
  | nil => rfl
  | cons x xs ih =>
    cases n with
    | zero =>
      cases m with
      | zero => exact absurd rfl h
      | succ m => rfl
    | succ n =>
      cases m with
      | zero => rfl
      | succ m =>
        rw [List.set_cons_succ, List.getD_cons_succ, List.getD_cons_succ]
        exact ih n m (fun hnm => h (by rw [hnm]))

theorem listReplicate_getD_lt {α : Type} (n j : Nat) (a d : α) (h : j < n) :
    (List.replicate n a).getD j d = a := by
  induction n generalizing j with
  | zero => simp at h
  | succ n ih =>
    cases j with
    | zero => rfl
    | succ j =>
      rw [List.replicate_succ, List.getD_cons_succ]
      exact ih j (by omega)

theorem listReplicate_zero_getD (n j : Nat) :
    (List.replicate n (0 : Int)).getD j 0 = 0 := by
  induction n generalizing j with
  | zero => cases j <;> rfl
  | succ n ih =>
    cases j with
    | zero => rfl
    | succ j =>
      rw [List.replicate_succ, List.getD_cons_succ]
      exact ih j

/-! ### Arithmetic helpers -/

theorem toInt32_eq_self {x : Int} (h1 : -(2 ^ 31) ≤ x) (h2 : x < 2 ^ 31) :
    toInt32 x = x := by
  unfold toInt32
  rw [Int.emod_eq_of_lt (by omega) (by omega)]
  omega

/-- For a non-negative value and row index whose linear combination fits in
a 32-bit `int`, the hash lands in `[0, width)` whenever `width > 0`. -/
theorem universalHash_mem_range {w v i : Int}
    (hv1 : -(2 ^ 31) ≤ 31 * v) (hv2 : 31 * v < 2 ^ 31)
    (hi1 : -(2 ^ 31) ≤ 17 * i) (hi2 : 17 * i < 2 ^ 31)
    (hsum : 0 ≤ 31 * v + 17 * i) (hfit : 31 * v + 17 * i < 2 ^ 31)
    (hw : 0 < w) :
    0 ≤ CountMinSketch.universalHash w v i ∧
      CountMinSketch.universalHash w v i < w := by
  unfold CountMinSketch.universalHash
  rw [toInt32_eq_self (x := 31 * v) hv1 hv2,
      toInt32_eq_self (x := 17 * i) hi1 hi2,
      toInt32_eq_self (by omega) (by omega)]
  have h0 : (0 : Int) ≤ Int.tmod (31 * v + 17 * i) 15485863 :=
    Int.tmod_nonneg _ hsum
  exact ⟨Int.tmod_nonneg _ h0, Int.tmod_lt_of_pos _ hw⟩

/-! ### Characterization of the update loop -/

theorem tableApply_eq_some {w v : Int} {f : Int → Int} {tbl : List (List Int)}
    {i : Nat} {tbl1 : List (List Int)}
    (h : CountMinSketch.tableApply w v f tbl i = some tbl1) :
    i < tbl.length ∧ 0 ≤ hashIdx w v i ∧
      (hashIdx w v i).toNat < (tbl.getD i []).length ∧
      tbl1 = tbl.set i ((tbl.getD i []).set (hashIdx w v i).toNat
        (f ((tbl.getD i []).getD (hashIdx w v i).toNat 0))) := by
  simp only [CountMinSketch.tableApply, CountMinSketch.rowApply] at h
  by_cases hlen : i < tbl.length
  · rw [if_pos hlen] at h
    by_cases hidx : 0 ≤ CountMinSketch.universalHash w v (i : Int) ∧
        (CountMinSketch.universalHash w v (i : Int)).toNat < (tbl.getD i []).length
    · rw [if_pos hidx, Option.map_some'] at h
      exact ⟨hlen, hidx.1, hidx.2, (Option.some.inj h).symm⟩
    · rw [if_neg hidx] at h
      cases h
  · rw [if_neg hlen] at h
    cases h

theorem tableApply_succeeds {w v : Int} (f : Int → Int) {tbl : List (List Int)}
    {i : Nat} (hlen : i < tbl.length) (h0 : 0 ≤ hashIdx w v i)
    (hlt : (hashIdx w v i).toNat < (tbl.getD i []).length) :
    CountMinSketch.tableApply w v f tbl i =
      some (tbl.set i ((tbl.getD i []).set (hashIdx w v i).toNat
        (f ((tbl.getD i []).getD (hashIdx w v i).toNat 0)))) := by
  simp only [CountMinSketch.tableApply, CountMinSketch.rowApply]
  rw [if_pos hlen,
    if_pos (⟨h0, hlt⟩ : 0 ≤ CountMinSketch.universalHash w v (i : Int) ∧
      (CountMinSketch.universalHash w v (i : Int)).toNat < (tbl.getD i []).length),
    Option.map_some']
  rfl

theorem updateLoop_spec (w v : Int) (f : Int → Int) :
    ∀ (k i : Nat) (tbl tbl' : List (List Int)),
      CountMinSketch.updateLoop w v f i tbl k = some tbl' →
      tbl'.length = tbl.length ∧
      ∀ j : Nat,
        (¬(i ≤ j ∧ j < i + k) → tbl'.getD j [] = tbl.getD j []) ∧
        (i ≤ j → j < i + k →
          j < tbl.length ∧ 0 ≤ hashIdx w v j ∧
          (hashIdx w v j).toNat < (tbl.getD j []).length ∧
          tbl'.getD j [] =
            (tbl.getD j []).set (hashIdx w v j).toNat
              (f ((tbl.getD j []).getD (hashIdx w v j).toNat 0))) := by
  intro k
  induction k with
  | zero =>
    intro i tbl tbl' h
    simp only [CountMinSketch.updateLoop] at h
    cases h
    exact ⟨rfl, fun j => ⟨fun _ => rfl, fun h1 h2 => by omega⟩⟩
  | succ k ih =>
    intro i tbl tbl' h
    simp only [CountMinSketch.updateLoop] at h
    cases htap : CountMinSketch.tableApply w v f tbl i with
    | none => rw [htap] at h; cases h
    | some tbl1 =>
      rw [htap] at h
      obtain ⟨hlen, hi0, hilt, htbl1⟩ := tableApply_eq_some htap
      obtain ⟨hlen', hrows⟩ := ih (i + 1) tbl1 tbl' h
      have hlen1 : tbl1.length = tbl.length := by
        rw [htbl1, List.length_set]
      have hget1 : ∀ j : Nat, j ≠ i → tbl1.getD j [] = tbl.getD j [] := by
        intro j hj
        rw [htbl1]
        exact listSet_getD_ne _ _ _ _ _ (fun hij => hj hij.symm)
      have hgeti : tbl1.getD i [] =
          (tbl.getD i []).set (hashIdx w v i).toNat
            (f ((tbl.getD i []).getD (hashIdx w v i).toNat 0)) := by
        rw [htbl1]
        exact listSet_getD_self _ _ _ _ hlen
      refine ⟨by omega, fun j => ⟨?_, ?_⟩⟩
      · intro hout
        have h1 : ¬(i + 1 ≤ j ∧ j < i + 1 + k) := by omega
        have h2 : j ≠ i := by omega
        rw [(hrows j).1 h1, hget1 j h2]
      · intro hle hlt
        by_cases hji : j = i
        · subst hji
          have h1 : ¬(j + 1 ≤ j ∧ j < j + 1 + k) := by omega
          rw [(hrows j).1 h1]
          exact ⟨hlen, hi0, hilt, hgeti⟩
        · have h1 : i + 1 ≤ j := by omega
          have h2 : j < i + 1 + k := by omega
          obtain ⟨hj1, hj2, hj3, hj4⟩ := (hrows j).2 h1 h2
          rw [hget1 j hji] at hj3 hj4
          exact ⟨by omega, hj2, hj3, hj4⟩

theorem updateLoop_succeeds (w v : Int) (f : Int → Int) :
    ∀ (k i : Nat) (tbl : List (List Int)),
      i + k ≤ tbl.length →
      (∀ j : Nat, i ≤ j → j < i + k →
        0 ≤ hashIdx w v j ∧ (hashIdx w v j).toNat < (tbl.getD j []).length) →
      ∃ tbl', CountMinSketch.updateLoop w v f i tbl k = some tbl' := by
  intro k
  induction k with
  | zero => intro i tbl _ _; exact ⟨tbl, rfl⟩
  | succ k ih =>
    intro i tbl hlen hbound
    have hi : i < tbl.length := by omega
    obtain ⟨hi0, hilt⟩ := hbound i (by omega) (by omega)
    have htap := tableApply_succeeds f hi hi0 hilt
    set row' := (tbl.getD i []).set (hashIdx w v i).toNat
      (f ((tbl.getD i []).getD (hashIdx w v i).toNat 0)) with hrow'
    have hlen1 : (tbl.set i row').length = tbl.length := List.length_set _ _ _
    have hb : ∀ j : Nat, i + 1 ≤ j → j < i + 1 + k →
        0 ≤ hashIdx w v j ∧
          (hashIdx w v j).toNat < ((tbl.set i row').getD j []).length := by
      intro j h1 h2
      have hji : j ≠ i := by omega
      rw [listSet_getD_ne _ _ _ _ _ (fun hij => hji hij.symm)]
      exact hbound j (by omega) (by omega)
    obtain ⟨tbl', htl⟩ := ih (i + 1) (tbl.set i row') (by omega) hb
    refine ⟨tbl', ?_⟩
    simp only [CountMinSketch.updateLoop, htap]
    exact htl

/-! ### Characterization of the estimate loop -/

theorem estimateLoop_le {s : CountMinSketch} {v : Int} :
    ∀ (k i : Nat) (mc r : Int),
      CountMinSketch.estimateLoop s v i mc k = some r → r ≤ mc := by
  intro k
  induction k with
  | zero =>
    intro i mc r h
    simp only [CountMinSketch.estimateLoop] at h
    cases h
    exact le_refl _
  | succ k ih =>
    intro i mc r h
    simp only [CountMinSketch.estimateLoop] at h
    by_cases hlen : i < s.table.length
    · rw [if_pos hlen] at h
      by_cases hidx : 0 ≤ CountMinSketch.universalHash s.width v (i : Int) ∧
          (CountMinSketch.universalHash s.width v (i : Int)).toNat <
            (s.table.getD i []).length
      · rw [if_pos hidx] at h
        exact le_trans (ih (i + 1) _ r h) (min_le_left _ _)
      · rw [if_neg hidx] at h
        cases h
    · rw [if_neg hlen] at h
      cases h

theorem estimateLoop_ge {s : CountMinSketch} {v : Int} (n : Int) :
    ∀ (k i : Nat) (mc : Int), n ≤ mc →
      (∀ j : Nat, i ≤ j → j < i + k →
        j < s.table.length ∧ 0 ≤ hashIdx s.width v j ∧
        (hashIdx s.width v j).toNat < (s.table.getD j []).length ∧
        n ≤ (s.table.getD j []).getD (hashIdx s.width v j).toNat 0) →
      ∃ r, CountMinSketch.estimateLoop s v i mc k = some r ∧ n ≤ r := by
  intro k
  induction k with
  | zero =>
    intro i mc hmc _
    exact ⟨mc, rfl, hmc⟩
  | succ k ih =>
    intro i mc hmc hb
    obtain ⟨hjlen, hj0, hjlt, hjcell⟩ := hb i (le_refl i) (by omega)
    obtain ⟨r, hr, hnr⟩ := ih (i + 1)
      (min mc ((s.table.getD i []).getD (hashIdx s.width v i).toNat 0))
      (le_min hmc hjcell)
      (fun j h1 h2 => hb j (by omega) (by omega))
    refine ⟨r, ?_, hnr⟩
    simp only [CountMinSketch.estimateLoop]
    rw [if_pos hjlen,
      if_pos (⟨hj0, hjlt⟩ : 0 ≤ CountMinSketch.universalHash s.width v (i : Int) ∧
        (CountMinSketch.universalHash s.width v (i : Int)).toNat <
          (s.table.getD i []).length)]
    exact hr

/-- Any successful `estimate` is at most the `INT_MAX` seed of its running
minimum. -/
theorem estimate_le_INTMAX {s : CountMinSketch} {v e : Int}
    (h : s.estimate v = some e) : e ≤ 2147483647 :=
  estimateLoop_le s.depth.toNat 0 2147483647 e h

/-! ### Counter predicates are preserved by the update loop -/

theorem listGetD_mem {α : Type} (l : List α) (n : Nat) (d : α)
    (h : n < l.length) : l.getD n d ∈ l := by
  induction l generalizing n with
  | nil => simp at h
  | cons x xs ih =>
    cases n with
    | zero => exact List.mem_cons_self _ _
    | succ n =>
      rw [List.getD_cons_succ]
      exact List.mem_cons_of_mem _ (ih n (by simpa using h))

theorem updateLoop_preserves {P : Int → Prop} {w v : Int} {f : Int → Int}
    (hf : ∀ c, P c → P (f c)) :
    ∀ (k i : Nat) (tbl tbl' : List (List Int)),
      CountMinSketch.updateLoop w v f i tbl k = some tbl' →
      (∀ row ∈ tbl, ∀ c ∈ row, P c) →
      ∀ row ∈ tbl', ∀ c ∈ row, P c := by
  intro k
  induction k with
  | zero =>
    intro i tbl tbl' h hP
    simp only [CountMinSketch.updateLoop] at h
    cases h
    exact hP
  | succ k ih =>
    intro i tbl tbl' h hP
    simp only [CountMinSketch.updateLoop] at h
    cases htap : CountMinSketch.tableApply w v f tbl i with
    | none => rw [htap] at h; cases h
    | some tbl1 =>
      rw [htap] at h
      obtain ⟨hlen, hi0, hilt, htbl1⟩ := tableApply_eq_some htap
      apply ih (i + 1) tbl1 tbl' h
      subst htbl1
      intro row hrow c hc
      rcases List.mem_or_eq_of_mem_set hrow with hmem | heq
      · exact hP row hmem c hc
      · subst heq
        rcases List.mem_or_eq_of_mem_set hc with hmem | heq
        · exact hP _ (listGetD_mem _ _ _ hlen) c hmem
        · subst heq
          exact hf _ (hP _ (listGetD_mem _ _ _ hlen) _
            (listGetD_mem _ _ _ hilt))

theorem add_preserves_nonneg {s s' : CountMinSketch} {v : Int}
    (h : s.add v = some s') (hP : ∀ row ∈ s.table, ∀ c ∈ row, 0 ≤ c) :
    ∀ row ∈ s'.table, ∀ c ∈ row, 0 ≤ c := by
  simp only [CountMinSketch.add, Option.map_eq_some'] at h
  obtain ⟨t, ht, hs'⟩ := h
  subst hs'
  exact updateLoop_preserves (fun c hc => by omega) _ _ _ _ ht hP

theorem remove_preserves_nonneg {s s' : CountMinSketch} {v : Int}
    (h : s.remove v = some s') (hP : ∀ row ∈ s.table, ∀ c ∈ row, 0 ≤ c) :
    ∀ row ∈ s'.table, ∀ c ∈ row, 0 ≤ c := by
  simp only [CountMinSketch.remove, Option.map_eq_some'] at h
  obtain ⟨t, ht, hs'⟩ := h
  subst hs'
  exact updateLoop_preserves (fun c _ => le_max_left 0 (c - 1)) _ _ _ _ ht hP

theorem runOps_preserves_nonneg :
    ∀ (ops : List SketchOp) (s0 s : CountMinSketch),
      runOps s0 ops = some s → (∀ row ∈ s0.table, ∀ c ∈ row, 0 ≤ c) →
      ∀ row ∈ s.table, ∀ c ∈ row, 0 ≤ c := by
  intro ops
  induction ops with
  | nil =>
    intro s0 s h hP
    simp only [runOps] at h
    cases h
    exact hP
  | cons op rest ih =>
    intro s0 s h hP
    cases op with
    | addOp v =>
      simp only [runOps] at h
      cases hadd : s0.add v with
      | none => rw [hadd] at h; cases h
      | some s1 =>
        rw [hadd] at h
        exact ih s1 s h (add_preserves_nonneg hadd hP)
    | removeOp v =>
      simp only [runOps] at h
      cases hrem : s0.remove v with
      | none => rw [hrem] at h; cases h
      | some s1 =>
        rw [hrem] at h
        exact ih s1 s h (remove_preserves_nonneg hrem hP)

/-! ### Insert-only behaviour from a fresh sketch -/

theorem addN_fresh_spec (w d v : Int) (hw : 0 < w)
    (hhash : ∀ j : Nat, j < d.toNat → 0 ≤ hashIdx w v j ∧ hashIdx w v j < w) :
    ∀ n : Nat, ∃ s',
      addN ⟨w, d, List.replicate d.toNat (List.replicate w.toNat 0)⟩ v n = some s' ∧
      s'.width = w ∧ s'.depth = d ∧ s'.table.length = d.toNat ∧
      ∀ j : Nat, j < d.toNat →
        (s'.table.getD j []).length = w.toNat ∧
        (s'.table.getD j []).getD (hashIdx w v j).toNat 0 = (n : Int) := by
  intro n
  induction n with
  | zero =>
    refine ⟨_, rfl, rfl, rfl, List.length_replicate _ _, ?_⟩
    intro j hj
    rw [listReplicate_getD_lt _ _ _ _ hj]
    exact ⟨List.length_replicate _ _, listReplicate_zero_getD _ _⟩
  | succ n ih =>
    obtain ⟨s', hs', hw', hd', hlen', hcell'⟩ := ih
    have hidxlt : ∀ j : Nat, j < d.toNat →
        0 ≤ hashIdx w v j ∧
          (hashIdx w v j).toNat < (s'.table.getD j []).length := by
      intro j hj
      obtain ⟨hrl, _⟩ := hcell' j hj
      obtain ⟨h0, hlt⟩ := hhash j hj
      rw [hrl]
      exact ⟨h0, by omega⟩
    obtain ⟨tbl', htbl'⟩ := updateLoop_succeeds w v (fun c => c + 1) d.toNat 0
      s'.table (by omega) (fun j h1 h2 => hidxlt j (by omega))
    have hadd : s'.add v = some { s' with table := tbl' } := by
      unfold CountMinSketch.add
      rw [hw', hd', htbl']
      rfl
    obtain ⟨hlen2, hrows⟩ := updateLoop_spec w v _ d.toNat 0 s'.table tbl' htbl'
    refine ⟨{ s' with table := tbl' }, ?_, hw', hd', by simpa [hlen2] using hlen', ?_⟩
    · simp only [addN, hs', hadd]
    · intro j hj
      obtain ⟨hjlen, hj0, hjlt, hjget⟩ := (hrows j).2 (by omega) (by omega)
      constructor
      · show (tbl'.getD j []).length = w.toNat
        rw [hjget, List.length_set]
        exact (hcell' j hj).1
      · show (tbl'.getD j []).getD (hashIdx w v j).toNat 0 = ((n + 1 : Nat) : Int)
        rw [hjget, listSet_getD_self _ _ _ _ hjlt, (hcell' j hj).2]
        omega

/-- C1: with the sampler bypassed (rate 1.0 lets every insert through, so `n`
inserts are `n` sketch `add(v)` calls), inserting `v` a number `n` of times
into a freshly constructed sketch with positive dimensions — assuming the
hash indices for `v` are in range, i.e. the table accesses are defined, and
`n` stays within `int` range — makes `estimate(v)` return a defined value
that is at least `n`. -/
theorem claim_C1 (w d v : Int) (n : Nat) (hw : 0 < w) (hd : 0 < d)
    (hn : (n : Int) ≤ 2147483647)
    (hhash : ∀ j : Nat, j < d.toNat → 0 ≤ hashIdx w v j ∧ hashIdx w v j < w) :
    ∃ s0 s' e, CountMinSketch.construct w d = some s0 ∧
      addN s0 v n = some s' ∧ s'.estimate v = some e ∧ (n : Int) ≤ e := by
  have hcons : CountMinSketch.construct w d =
      some ⟨w, d, List.replicate d.toNat (List.replicate w.toNat 0)⟩ := by
    unfold CountMinSketch.construct
    rw [if_neg (by omega)]
  obtain ⟨s', hs', hw', hd', hlen', hcell'⟩ := addN_fresh_spec w d v hw hhash n
  have hbound : ∀ j : Nat, 0 ≤ j → j < 0 + s'.depth.toNat →
      j < s'.table.length ∧ 0 ≤ hashIdx s'.width v j ∧
      (hashIdx s'.width v j).toNat < (s'.table.getD j []).length ∧
      (n : Int) ≤ (s'.table.getD j []).getD (hashIdx s'.width v j).toNat 0 := by
    intro j _ hj
    rw [hd'] at hj
    rw [hw']
    obtain ⟨hrl, hcv⟩ := hcell' j (by omega)
    obtain ⟨h0, hlt⟩ := hhash j (by omega)
    exact ⟨by omega, h0, by omega, by rw [hcv]⟩
  obtain ⟨r, hr, hnr⟩ :=
    estimateLoop_ge (s := s') (v := v) ((n : Int)) s'.depth.toNat 0 2147483647
      hn hbound
  exact ⟨_, s', r, hcons, hs', hr, hnr⟩

/-- C1 witness: ten inserts of value 5 into a fresh 10-wide, 5-deep sketch
give an estimate of at least ten. -/
theorem claim_C1_witness :
    ∃ s0 s' e, CountMinSketch.construct 10 5 = some s0 ∧
      addN s0 5 10 = some s' ∧ s'.estimate 5 = some e ∧ (10 : Int) ≤ e :=
  claim_C1 10 5 5 10 (by decide) (by decide) (by decide) (by decide)

/-- C2: starting from a sketch constructed with positive width and depth,
any defined sequence of `add`/`remove` calls leaves every counter of the
table non-negative: the saturating decrement never drives a counter below
zero. -/
theorem claim_C2 (w d : Int) (ops : List SketchOp) (s0 s : CountMinSketch)
    (hw : 0 < w) (hd : 0 < d)
    (hcons : CountMinSketch.construct w d = some s0)
    (hrun : runOps s0 ops = some s) :
    ∀ row ∈ s.table, ∀ c ∈ row, 0 ≤ c := by
  have h0 : ∀ row ∈ s0.table, ∀ c ∈ row, 0 ≤ c := by
    unfold CountMinSketch.construct at hcons
    rw [if_neg (by omega)] at hcons
    cases hcons
    intro row hrow c hc
    rw [List.eq_of_mem_replicate hrow] at hc
    exact le_of_eq (List.eq_of_mem_replicate hc).symm
  exact runOps_preserves_nonneg ops s0 s hrun h0

/-- C2 witness: an add followed by two removes of the same value (driving
the touched counters through the saturating floor) keeps every counter at
or above zero. -/
theorem claim_C2_witness :
    (0 : Int) ≤ (sketchEx.table.getD 0 []).getD 5 0 :=
  claim_C2 10 3 [.addOp 5, .removeOp 5, .removeOp 5] sketchEx sketchEx
    (by decide) (by decide) (by decide) (by decide)
    (sketchEx.table.getD 0 []) (by decide)
    ((sketchEx.table.getD 0 []).getD 5 0) (by decide)

/-- C3: whenever the three point estimates are defined, `query` on the
predicate list `[(0, x), (0, y), (1, z)]` returns exactly
`min(min(estimate_A(x), estimate_A(y)), estimate_B(z))`: same-column
estimates combine by minimum and the final result is the minimum across
the per-column estimates. -/
theorem claim_C3 (e : CEEngine) (x y z ea ey ez : Int)
    (hx : e.countMinA.estimate x = some ea)
    (hy : e.countMinA.estimate y = some ey)
    (hz : e.countMinB.estimate z = some ez) :
    e.query [⟨0, x⟩, ⟨0, y⟩, ⟨1, z⟩] = .ok (min (min ea ey) ez) := by
  have heyx : min ea ey ≤ 2147483647 :=
    le_trans (min_le_left _ _) (estimate_le_INTMAX hx)
  have hloop : CEEngine.queryLoop e [⟨0, x⟩, ⟨0, y⟩, ⟨1, z⟩] [] =
      .ok [(0, min ea ey), (1, ez)] := by
    simp only [CEEngine.queryLoop, hx, hy, hz, assocFind, assocSet]
    norm_num
  unfold CEEngine.query
  rw [if_neg (by simp), hloop]
  show Except.ok (CEEngine.queryFinal [(0, min ea ey), (1, ez)]) = _
  unfold CEEngine.queryFinal
  simp only [List.foldl]
  rw [min_eq_right heyx]

/-- C3 witness: on an engine with fresh sketches all three estimates are 0
and the query over `[(0,5), (0,6), (1,7)]` returns 0. -/
theorem claim_C3_witness :
    engineEx.countMinA.estimate 5 = some 0 ∧
    engineEx.countMinA.estimate 6 = some 0 ∧
    engineEx.countMinB.estimate 7 = some 0 ∧
    engineEx.query [⟨0, 5⟩, ⟨0, 6⟩, ⟨1, 7⟩] = .ok (min (min 0 0) 0) :=
  ⟨by decide, by decide, by decide,
    claim_C3 engineEx 5 6 7 0 0 0 (by decide) (by decide) (by decide)⟩

/-- C4 counterexample: constructing a sketch with `width = 0 ≤ 0` and
`depth = 0 ≤ 0` does not fail at all — the source constructor has no
validation and simply builds an empty table, so no `InvalidDimension`
error exists in the code. -/
theorem claim_C4_counterexample :
    CountMinSketch.construct 0 0 = some ⟨0, 0, []⟩ := by decide

/-- C4 (amended): construction performs no dimension validation. A negative
width or depth fails only because the huge `size_t` conversion makes the
`std::vector` allocation throw; width or depth equal to 0 is accepted and
yields empty rows or an empty table; with positive arguments the result is
a `depth × width` table in which every counter is zero. -/
theorem claim_C4 :
    (∀ w d : Int, w < 0 ∨ d < 0 → CountMinSketch.construct w d = none) ∧
    (∀ w d : Int, 0 ≤ w → 0 ≤ d →
      CountMinSketch.construct w d =
        some ⟨w, d, List.replicate d.toNat (List.replicate w.toNat 0)⟩) ∧
    (∀ (w d : Int) (s : CountMinSketch), 0 < w → 0 < d →
      CountMinSketch.construct w d = some s →
      s.width = w ∧ s.depth = d ∧ s.table.length = d.toNat ∧
      ∀ row ∈ s.table, row.length = w.toNat ∧ ∀ c ∈ row, c = 0) := by
  refine ⟨?_, ?_, ?_⟩
  · intro w d hneg
    unfold CountMinSketch.construct
    rw [if_pos hneg]
  · intro w d hw hd
    unfold CountMinSketch.construct
    rw [if_neg (by omega)]
  · intro w d s hw hd hcons
    unfold CountMinSketch.construct at hcons
    rw [if_neg (by omega)] at hcons
    cases hcons
    refine ⟨rfl, rfl, List.length_replicate _ _, ?_⟩
    intro row hrow
    rw [List.eq_of_mem_replicate hrow]
    exact ⟨List.length_replicate _ _, fun c hc => List.eq_of_mem_replicate hc⟩

/-- C4 witness: a negative width aborts construction, while positive
dimensions build the all-zero table. -/
theorem claim_C4_witness :
    CountMinSketch.construct (-1) 5 = none ∧
    CountMinSketch.construct 10 5 =
      some ⟨10, 5, List.replicate 5 (List.replicate 10 0)⟩ :=
  ⟨claim_C4.1 (-1) 5 (by decide), claim_C4.2.1 10 5 (by decide) (by decide)⟩

/-- C5: a tuple with fewer than two elements makes both `insertTuple` and
`deleteTuple` fail with the malformed-tuple error, and the empty predicate
list makes `query` fail with the empty-query error; each failure is
reported before any sketch or sampler update, so the returned error carries
no state change. -/
theorem claim_C5 (e : CEEngine) (t : List Int) (tid : Int)
    (h : t.length < 2) :
    e.insertTuple t = .error .malformedTuple ∧
    e.deleteTuple t tid = .error .malformedTuple ∧
    e.query [] = .error .emptyQuery := by
  refine ⟨?_, ?_, rfl⟩
  · unfold CEEngine.insertTuple
    rw [if_pos h]
  · unfold CEEngine.deleteTuple
    rw [if_pos h]

/-- C5 witness: `insertTuple([7])`, `deleteTuple([7], 0)` and `query([])`
fail with the expected errors. -/
theorem claim_C5_witness :
    CEEngine.insertTuple engineEx [7] = .error .malformedTuple ∧
    CEEngine.deleteTuple engineEx [7] 0 = .error .malformedTuple ∧
    CEEngine.query engineEx [] = .error .emptyQuery :=
  claim_C5 engineEx [7] 0 (by decide)

/-- C6: on a valid tuple, `insertTuple` consumes exactly one sampler draw
(the stream loses its head in every outcome) and a single admission
decision covers both columns: on a successful draw, `tuple[0]` goes to sketch A and
`tuple[1]` to sketch B, otherwise neither sketch changes; `deleteTuple`
removes from both sketches unconditionally, with no sampler interaction,
and its result does not depend on the `tupleId` argument. -/
theorem claim_C6 (e : CEEngine) (t : List Int) (tid tid' : Int)
    (h : 2 ≤ t.length) :
    e.deleteTuple t tid = e.deleteTuple t tid' ∧
    (e.sampler.headD false = true →
      e.insertTuple t =
        match e.countMinA.add (t.getD 0 0), e.countMinB.add (t.getD 1 0) with
        | some a, some b => .ok ⟨a, b, e.sampler.tail⟩
        | some _, none => .error .outOfBounds
        | none, _ => .error .outOfBounds) ∧
    (e.sampler.headD false = false →
      e.insertTuple t = .ok ⟨e.countMinA, e.countMinB, e.sampler.tail⟩) ∧
    e.deleteTuple t tid =
      match e.countMinA.remove (t.getD 0 0), e.countMinB.remove (t.getD 1 0) with
      | some a, some b => .ok ⟨a, b, e.sampler⟩
      | some _, none => .error .outOfBounds
      | none, _ => .error .outOfBounds := by
  have h2 : ¬t.length < 2 := by omega
  refine ⟨rfl, ?_, ?_, ?_⟩
  · intro hs
    simp only [CEEngine.insertTuple]
    rw [if_neg h2, hs]
    simp only [if_true]
    cases e.countMinA.add (t.getD 0 0) <;>
      cases e.countMinB.add (t.getD 1 0) <;> rfl
  · intro hs
    simp only [CEEngine.insertTuple]
    rw [if_neg h2, hs]
    simp only [Bool.false_eq_true, if_false]
  · simp only [CEEngine.deleteTuple]
    rw [if_neg h2]
    cases e.countMinA.remove (t.getD 0 0) <;>
      cases e.countMinB.remove (t.getD 1 0) <;> rfl

/-- C6 witness: on tuple `[5, 7]` the delete result ignores the tuple id,
and with a sampler stream whose next draw is `false` the insert leaves both
sketches untouched while still consuming the draw. -/
theorem claim_C6_witness :
    2 ≤ ([5, 7] : List Int).length ∧
    CEEngine.deleteTuple engineEx [5, 7] 0 = CEEngine.deleteTuple engineEx [5, 7] 1 ∧
    CEEngine.insertTuple engineEx [5, 7] =
      .ok ⟨engineEx.countMinA, engineEx.countMinB, engineEx.sampler.tail⟩ :=
  ⟨by decide, (claim_C6 engineEx [5, 7] 0 1 (by decide)).1,
    (claim_C6 engineEx [5, 7] 0 1 (by decide)).2.2.1 (by decide)⟩

/-- C7: on a width-10, depth-3 sketch (where value 5 hashes without
collision), three `add(5)` calls give `estimate(5) = 3`, one `remove(5)`
gives 2, and three further `remove(5)` calls saturate the counters at 0
rather than going negative. -/
theorem claim_C7 :
    ((CountMinSketch.construct 10 3).bind fun s => addN s 5 3).bind
        (fun s => s.estimate 5) = some 3 ∧
    (((CountMinSketch.construct 10 3).bind fun s => addN s 5 3).bind
        (fun s => s.remove 5)).bind (fun s => s.estimate 5) = some 2 ∧
    ((((CountMinSketch.construct 10 3).bind fun s => addN s 5 3).bind
        (fun s => s.remove 5)).bind (fun s => removeN s 5 3)).bind
        (fun s => s.estimate 5) = some 0 := by
  decide

/-- C8: `prepare` is idempotent — a second `prepare` right after a first
one changes nothing — and the prepared engine has both sketches rebuilt
with their previous width and depth, every counter zero, and the sampler
untouched. -/
theorem claim_C8 (e e' : CEEngine) (h : e.prepare = some e') :
    e'.prepare = some e' ∧
    e'.countMinA.width = e.countMinA.width ∧
    e'.countMinA.depth = e.countMinA.depth ∧
    e'.countMinB.width = e.countMinB.width ∧
    e'.countMinB.depth = e.countMinB.depth ∧
    (∀ row ∈ e'.countMinA.table, ∀ c ∈ row, c = 0) ∧
    (∀ row ∈ e'.countMinB.table, ∀ c ∈ row, c = 0) ∧
    e'.sampler = e.sampler := by
  unfold CEEngine.prepare CountMinSketch.construct at h
  by_cases hA : e.countMinA.width < 0 ∨ e.countMinA.depth < 0
  · rw [if_pos hA] at h
    cases h
  · rw [if_neg hA] at h
    by_cases hB : e.countMinB.width < 0 ∨ e.countMinB.depth < 0
    · rw [if_pos hB] at h
      cases h
    · rw [if_neg hB] at h
      cases h
      refine ⟨?_, rfl, rfl, rfl, rfl, ?_, ?_, rfl⟩
      · unfold CEEngine.prepare CountMinSketch.construct
        rw [if_neg (hA : ¬_), if_neg (hB : ¬_)]
      · intro row hrow c hc
        rw [List.eq_of_mem_replicate hrow] at hc
        exact List.eq_of_mem_replicate hc
      · intro row hrow c hc
        rw [List.eq_of_mem_replicate hrow] at hc
        exact List.eq_of_mem_replicate hc

/-- C8 witness: preparing the fresh example engine returns it unchanged,
and a second `prepare` agrees. -/
theorem claim_C8_witness :
    CEEngine.prepare engineEx = some engineEx ∧
    (∀ row ∈ engineEx.countMinA.table, ∀ c ∈ row, c = 0) :=
  ⟨by decide, (claim_C8 engineEx engineEx (by decide)).2.2.2.2.2.1⟩

/-- C9 counterexample: the claim's "only when the linear combination is
non-negative" direction is false — `value = -15485863` makes
`31·value + 17·0` negative (with no overflow), yet the computed bucket
index is `0`, inside `[0, 10)`. -/
theorem claim_C9_counterexample :
    0 ≤ CountMinSketch.universalHash 10 (-15485863) 0 ∧
    CountMinSketch.universalHash 10 (-15485863) 0 < 10 ∧
    31 * (-15485863 : Int) + 17 * 0 < 0 := by
  decide

/-- C9 (amended): the bucket index lies in `[0, width)` whenever the
evaluation of `31·value + 17·i` does not overflow a signed 32-bit `int`
(each product and the sum fit) and the sum is non-negative — any sign of
`value` and `i` is allowed (the index can additionally land in range for
some negative combinations); and for some negative input value — here
`-1` with `i = 0` — the index is negative, so the guarded table accesses
of `add`, `remove` and `estimate` all hit the error branch. -/
theorem claim_C9 :
    (∀ w v i : Int,
      -(2 ^ 31) ≤ 31 * v → 31 * v < 2 ^ 31 →
      -(2 ^ 31) ≤ 17 * i → 17 * i < 2 ^ 31 →
      0 ≤ 31 * v + 17 * i → 31 * v + 17 * i < 2 ^ 31 → 0 < w →
      0 ≤ CountMinSketch.universalHash w v i ∧
        CountMinSketch.universalHash w v i < w) ∧
    CountMinSketch.universalHash 10 (-1) 0 < 0 ∧
    (CountMinSketch.construct 10 3).bind (fun s => s.add (-1)) = none ∧
    (CountMinSketch.construct 10 3).bind (fun s => s.remove (-1)) = none ∧
    (CountMinSketch.construct 10 3).bind (fun s => s.estimate (-1)) = none :=
  ⟨fun _ _ _ hv1 hv2 hi1 hi2 hsum hfit hw =>
      universalHash_mem_range hv1 hv2 hi1 hi2 hsum hfit hw,
    by decide, by decide, by decide, by decide⟩

/-- C9 witness: a concrete instance of the amended hash-range statement
with a negative value — `value = -1`, `i = 2` gives the combination
`31·(-1) + 17·2 = 3 ≥ 0` with no overflow, and the index is `3 ∈ [0, 10)`. -/
theorem claim_C9_witness :
    0 ≤ CountMinSketch.universalHash 10 (-1) 2 ∧
      CountMinSketch.universalHash 10 (-1) 2 < 10 :=
  claim_C9.1 10 (-1) 2 (by decide) (by decide) (by decide) (by decide)
    (by decide) (by decide) (by decide)

/-- C10: `query` never validates the column index: any predicate whose
`columnIdx` differs from 0 — including out-of-range indices such as 2 or
-1 — is estimated against sketch B, and the estimate is recorded in the
per-column map under that index instead of raising an error. -/
theorem claim_C10 (e : CEEngine) (c z est : Int) (hc : ¬c = 0)
    (hz : e.countMinB.estimate z = some est) :
    CEEngine.queryLoop e [⟨c, z⟩] [] = .ok [(c, est)] ∧
    e.query [⟨c, z⟩] = .ok est := by
  have h1 : CEEngine.queryLoop e [⟨c, z⟩] [] = .ok [(c, est)] := by
    simp only [CEEngine.queryLoop]
    rw [if_neg hc, hz]
    rfl
  refine ⟨h1, ?_⟩
  unfold CEEngine.query
  rw [if_neg (by simp), h1]
  show Except.ok (CEEngine.queryFinal [(c, est)]) = _
  unfold CEEngine.queryFinal
  simp only [List.foldl]
  rw [min_eq_right (estimate_le_INTMAX hz)]

/-- C10 witness: the out-of-range column indices 2 and -1 both route to
sketch B and are recorded under themselves. -/
theorem claim_C10_witness :
    (CEEngine.queryLoop engineEx [⟨2, 5⟩] [] = .ok [(2, 0)] ∧
      CEEngine.query engineEx [⟨2, 5⟩] = .ok 0) ∧
    (CEEngine.queryLoop engineEx [⟨-1, 5⟩] [] = .ok [(-1, 0)] ∧
      CEEngine.query engineEx [⟨-1, 5⟩] = .ok 0) :=
  ⟨claim_C10 engineEx 2 5 0 (by decide) (by decide),
    claim_C10 engineEx (-1) 5 0 (by decide) (by decide)⟩
